import Mathlib

/-!
Verification of the historical snapshot extraction and caching pipeline of
`print-battleground-state-changes.py`.

The development shallowly embeds the pipeline's core:
* `process_json_data` — the record normalizer (source lines 50-70);
* `parse_isoformat` / timestamp serialization (source lines 72-80, and the
  external `datetime` ISO round trip the source relies on);
* `fetch_all_records` — the per-revision cache read/write, aggregation,
  sorting and grouping loop (source lines 82-124).

External collaborators (git, the simdjson parser, the `datetime` library)
are modelled as environment functions and as an injective timestamp codec
with a computable inverse; JSON documents are modelled by an explicit
recursive tree type.
-/

/-- Python exception kinds that the modelled code can raise. -/
inductive PyError where
  | attributeError
  | keyError
  | typeError
  | valueError
  | gitError
deriving DecidableEq, Repr

/-! ### Timestamps and their text form

The source stores `datetime.datetime` values and serializes them with
`datetime.isoformat()`, parsing them back with `datetime.fromisoformat`
(`parse_isoformat`, source lines 72-80).  The `datetime` library is an
external collaborator; it is modelled as an abstract point in time
(an integer count of microseconds) together with a concrete decimal
text codec, which has exactly the property the source relies on:
`fromisoformat` is a computable left inverse of `isoformat`. -/

/-- A point in time, modelling a timezone-aware `datetime.datetime`. -/
structure Datetime where
  micros : Int
deriving DecidableEq, Repr

/-- Decimal digit to character (used by the timestamp text form). -/
def digitToChar (d : Nat) : Char :=
  if d = 0 then '0' else if d = 1 then '1' else if d = 2 then '2'
  else if d = 3 then '3' else if d = 4 then '4' else if d = 5 then '5'
  else if d = 6 then '6' else if d = 7 then '7' else if d = 8 then '8'
  else if d = 9 then '9' else '*'

/-- Character back to decimal digit; `none` on a non-digit. -/
def charToDigit (c : Char) : Option Nat :=
  if '0' ≤ c ∧ c ≤ '9' then some (c.toNat - 48) else none

/-- Little-endian decimal digits of `n`, with explicit fuel (`fuel ≥ n` suffices). -/
def natDigitsAux : Nat → Nat → List Nat
  | 0, _ => []
  | _ + 1, 0 => []
  | fuel + 1, n + 1 => ((n + 1) % 10) :: natDigitsAux fuel ((n + 1) / 10)

/-- Little-endian decimal digits of `n`. -/
def natDigits (n : Nat) : List Nat := natDigitsAux n n

/-- Value of a little-endian digit list. -/
def valDigits : List Nat → Nat
  | [] => 0
  | d :: ds => d + 10 * valDigits ds

/-- Characters of `n` in the usual most-significant-first order. -/
def natChars (n : Nat) : List Char := ((natDigits n).map digitToChar).reverse

/-- Decode a character list into digits; `none` if any character is not a digit. -/
def charsToDigits : List Char → Option (List Nat)
  | [] => some []
  | c :: cs =>
    match charToDigit c with
    | none => none
    | some d =>
      match charsToDigits cs with
      | none => none
      | some ds => some (d :: ds)

/-- Parse a most-significant-first character list as a natural number. -/
def parseNatChars (cs : List Char) : Option Nat :=
  (charsToDigits cs).map (fun ds => valDigits ds.reverse)

/-- Serialize a timestamp to its text form (`datetime.isoformat` in the source). -/
def Datetime.isoformat (d : Datetime) : String :=
  if d.micros < 0 then String.mk ('-' :: natChars d.micros.natAbs)
  else String.mk (natChars d.micros.natAbs)

/-- Parse the text form of a timestamp (`datetime.fromisoformat` in the source);
`none` models the `ValueError` Python raises on an unparseable string. -/
def fromisoformat (s : String) : Option Datetime :=
  match s.data with
  | '-' :: cs => (parseNatChars cs).map (fun n => ⟨-(n : Int)⟩)
  | cs => (parseNatChars cs).map (fun n => ⟨(n : Int)⟩)

/-- Source `parse_isoformat` (lines 72-80): on Python ≥ 3.7 the
`hasattr(datetime.datetime, "fromisoformat")` test succeeds and the function
simply delegates to `datetime.fromisoformat`. -/
def parse_isoformat (s : String) : Option Datetime := fromisoformat s

/-! ### Generic JSON documents -/

/-- The generic structured-data tree produced by the external parser. -/
inductive Json where
  | null
  | bool (b : Bool)
  | num (n : Int)
  | str (s : String)
  | arr (xs : List Json)
  | obj (kvs : List (String × Json))

/-- First-match association lookup on an object's key/value list.  Objects
produced by `json.load` / the simdjson parser have no duplicate keys, so
first-match agrees with Python dict lookup. -/
def lookupKV : List (String × Json) → String → Option Json
  | [], _ => none
  | (k', v) :: rest, k => if k' = k then some v else lookupKV rest k

/-- Python `d.get(k)` / `d[k]` key lookup; `none` for a missing key and for a
non-object (where Python would raise `AttributeError` on `.get`). -/
def Json.find? : Json → String → Option Json
  | .obj kvs, k => lookupKV kvs k
  | _, _ => none

/-- Python `d.get(k, default)` for a string-valued field.  Python's
`NamedTuple` performs no runtime type validation, so the source would accept
a non-string value here; the typed embedding rejects that shape instead
(no claim depends on wrongly-typed present fields). -/
def Json.getStrD (j : Json) (k d : String) : Except PyError String :=
  match j.find? k with
  | none => .ok d
  | some (.str s) => .ok s
  | some _ => .error .typeError

/-- Python `d.get(k, default)` for an integer-valued field (same typing caveat
as `Json.getStrD`). -/
def Json.getIntD (j : Json) (k : String) (d : Int) : Except PyError Int :=
  match j.find? k with
  | none => .ok d
  | some (.num n) => .ok n
  | some _ => .error .typeError

/-- Python `d.get(k, [])` for a list-valued field: a missing key yields the
empty list; a present non-list value makes the subsequent `for` iteration
raise. -/
def Json.getListD (j : Json) (k : String) : Except PyError (List Json) :=
  match j.find? k with
  | none => .ok []
  | some (.arr xs) => .ok xs
  | some _ => .error .typeError

/-! ### Records (source lines 22-32) -/

/-- One entry of the `candidates` list: the dict
`{"last_name": ..., "votes": ...}` built on source line 56. -/
structure Candidate where
  last_name : String
  votes : Int
deriving DecidableEq, Repr

/-- The `InputRecord` NamedTuple (source lines 22-32). -/
structure InputRecord where
  timestamp : Datetime
  state_name : String
  state_abbrev : String
  electoral_votes : Int
  candidates : List Candidate
  votes : Int
  expected_votes : Int
  precincts_total : Int
  precincts_reporting : Int
  counties : List (String × Int)
deriving DecidableEq, Repr

/-! ### The record normalizer (source lines 50-70) -/

/-- Python `s.replace("Z", "+00:00")` from source line 54.  The pattern is a
single character, so the general replace specializes to a per-character
expansion. -/
def replaceZ (s : String) : String :=
  String.mk (s.data.flatMap (fun c => if c = 'Z' then ['+', '0', '0', ':', '0', '0'] else [c]))

/-- Source line 54: `datetime.datetime.fromisoformat(race.get("updated_at").replace("Z", "+00:00"))`.
A missing `updated_at` gives `None.replace` (`AttributeError`); a present
non-string likewise has no `.replace`; an unparseable string raises
`ValueError`. -/
def raceTimestamp (race : Json) : Except PyError Datetime :=
  match race.find? "updated_at" with
  | some (.str s) =>
    match fromisoformat (replaceZ s) with
    | some t => .ok t
    | none => .error .valueError
  | _ => .error .attributeError

/-- Source line 56, one element of the candidate comprehension:
`{"last_name": c.get("nyt_id", ""), "votes": c["votes"]["total"]}`.
A non-dict candidate raises on `.get`; a missing `"votes"` or `"total"` key
raises `KeyError` (there is no default for the vote count). -/
def processCandidate (c : Json) : Except PyError Candidate :=
  match c with
  | .obj _ =>
    match c.getStrD "nyt_id" "" with
    | .error e => .error e
    | .ok nm =>
      match c.find? "votes" with
      | none => .error .keyError
      | some (.obj vs) =>
        match lookupKV vs "total" with
        | some (.num n) => .ok ⟨nm, n⟩
        | some _ => .error .typeError
        | none => .error .keyError
      | some _ => .error .typeError
  | _ => .error .attributeError

/-- Map `processCandidate` over the candidate list, propagating the first error. -/
def processCandidates : List Json → Except PyError (List Candidate)
  | [] => .ok []
  | c :: cs =>
    match processCandidate c with
    | .error e => .error e
    | .ok cand =>
      match processCandidates cs with
      | .error e => .error e
      | .ok cands => .ok (cand :: cands)

/-- Source lines 56-68: build the `InputRecord` for one reporting unit. -/
def processUnit (updated_at : Datetime) (race : Json) (unit : Json) :
    Except PyError InputRecord :=
  match unit with
  | .obj _ =>
    match unit.getListD "candidates" with
    | .error e => .error e
    | .ok cjs =>
      match processCandidates cjs with
      | .error e => .error e
      | .ok cands =>
        match unit.getStrD "name" "Unknown" with
        | .error e => .error e
        | .ok nm =>
          match unit.getStrD "state_abb" "Unknown" with
          | .error e => .error e
          | .ok ab =>
            match race.getIntD "electoral_votes" 0 with
            | .error e => .error e
            | .ok ev =>
              match unit.getIntD "total_votes" 0 with
              | .error e => .error e
              | .ok tv =>
                match unit.getIntD "total_expected_vote" 0 with
                | .error e => .error e
                | .ok xv =>
                  match unit.getIntD "precincts_total" 0 with
                  | .error e => .error e
                  | .ok pt =>
                    match unit.getIntD "precincts_reporting" 0 with
                    | .error e => .error e
                    | .ok pr => .ok ⟨updated_at, nm, ab, ev, cands, tv, xv, pt, pr, []⟩
  | _ => .error .attributeError

/-- Process the reporting units of one race in order. -/
def processUnits (updated_at : Datetime) (race : Json) :
    List Json → Except PyError (List InputRecord)
  | [] => .ok []
  | u :: us =>
    match processUnit updated_at race u with
    | .error e => .error e
    | .ok r =>
      match processUnits updated_at race us with
      | .error e => .error e
      | .ok rs => .ok (r :: rs)

/-- Source lines 53-69: one iteration of the `races` loop. -/
def processRace (race : Json) : Except PyError (List InputRecord) :=
  match raceTimestamp race with
  | .error e => .error e
  | .ok t =>
    match race.getListD "reporting_units" with
    | .error e => .error e
    | .ok us => processUnits t race us

/-- Process all races, concatenating their records in order. -/
def processRaces : List Json → Except PyError (List InputRecord)
  | [] => .ok []
  | race :: rest =>
    match processRace race with
    | .error e => .error e
    | .ok rs =>
      match processRaces rest with
      | .error e => .error e
      | .ok rest' => .ok (rs ++ rest')

/-- Source `process_json_data` (lines 50-70): parse a raw document into the
flat list of `InputRecord`s, one per reporting unit per race.  A non-object
top-level document raises on `json_data.get`. -/
def process_json_data (j : Json) : Except PyError (List InputRecord) :=
  match j with
  | .obj _ =>
    match j.getListD "races" with
    | .error e => .error e
    | .ok races => processRaces races
  | _ => .error .attributeError

/-! ### The revision cache and the aggregation loop (source lines 82-124) -/

/-- The observable state of one on-disk cache file: either it exists but
`json.load` raises `ValueError` on it (corrupt/truncated), or it parses to a
JSON document.  The on-disk path `_cache/ref[:2]/ref[2:] + ".json"` (source
line 89) is injective in the commit ref, so entries are keyed directly by
ref. -/
inductive CacheFile where
  | corrupt
  | parsed (j : Json)

/-- The cache directory: newest write first, first match wins on lookup
(so a later write to the same ref overwrites, like the file system). -/
def Cache := List (String × CacheFile)

/-- Look a ref's cache file up. -/
def cacheLookup : Cache → String → Option CacheFile
  | [], _ => none
  | (r, f) :: rest, ref => if r = ref then some f else cacheLookup rest ref

/-- Write a ref's cache file (overwriting any previous one). -/
def cacheInsert (c : Cache) (ref : String) (f : CacheFile) : Cache := (ref, f) :: c

/-- Current cache schema version (source line 20). -/
def CACHE_VERSION : Int := 2

/-- Source line 97: `record.get('version') == CACHE_VERSION`.  True only when
the `version` key holds exactly the expected integer. -/
def isVersion (j : Json) (v : Int) : Bool :=
  match j.find? "version" with
  | some (.num n) => n == v
  | _ => false

/-- The exact field-name list of `InputRecord` (source lines 22-32), in
declaration order. -/
def recordFields : List String :=
  ["timestamp", "state_name", "state_abbrev", "electoral_votes", "candidates",
   "votes", "expected_votes", "precincts_total", "precincts_reporting", "counties"]

/-- Decode one cached candidate dict back to a `Candidate`.  Rows written by
the source always have this shape; `NamedTuple` would not itself validate it
(see `Json.getStrD`). -/
def candidateOfJson (j : Json) : Except PyError Candidate :=
  match j with
  | .obj kvs =>
    match lookupKV kvs "last_name", lookupKV kvs "votes" with
    | some (.str nm), some (.num n) => .ok ⟨nm, n⟩
    | _, _ => .error .typeError
  | _ => .error .typeError

/-- Decode a cached candidate list. -/
def candidatesOfJson : List Json → Except PyError (List Candidate)
  | [] => .ok []
  | j :: js =>
    match candidateOfJson j with
    | .error e => .error e
    | .ok c =>
      match candidatesOfJson js with
      | .error e => .error e
      | .ok cs => .ok (c :: cs)

/-- Decode a cached `counties` object. -/
def countiesOfJson : List (String × Json) → Except PyError (List (String × Int))
  | [] => .ok []
  | (k, v) :: rest =>
    match v with
    | .num n =>
      match countiesOfJson rest with
      | .error e => .error e
      | .ok cs => .ok ((k, n) :: cs)
    | _ => .error .typeError

/-- Source lines 98-102: turn one cached row back into an `InputRecord`.
`row_data['timestamp']` raises `KeyError` when the key is absent; a string
timestamp is parsed back (an unparseable one raises `ValueError`); a
non-string timestamp is kept as-is by the source, which then makes the sort
key computation on line 119 raise — modelled as an immediate error.
`InputRecord(**row_data)` raises `TypeError` unless the keys are exactly the
ten fields; `json.load` yields duplicate-free keys, so a length-10 object in
which every field is present has exactly the field key set. -/
def rowOfJson (j : Json) : Except PyError InputRecord :=
  match j with
  | .obj kvs =>
    match lookupKV kvs "timestamp" with
    | none => .error .keyError
    | some tsj =>
      match tsj with
      | .str s =>
        match parse_isoformat s with
        | none => .error .valueError
        | some ts =>
          if kvs.length = 10 then
            match lookupKV kvs "state_name", lookupKV kvs "state_abbrev",
                  lookupKV kvs "electoral_votes", lookupKV kvs "candidates" with
            | some (.str nm), some (.str ab), some (.num ev), some (.arr cjs) =>
              match candidatesOfJson cjs with
              | .error e => .error e
              | .ok cands =>
                match lookupKV kvs "votes", lookupKV kvs "expected_votes",
                      lookupKV kvs "precincts_total", lookupKV kvs "precincts_reporting",
                      lookupKV kvs "counties" with
                | some (.num tv), some (.num xv), some (.num pt), some (.num pr),
                  some (.obj cos) =>
                  match countiesOfJson cos with
                  | .error e => .error e
                  | .ok cnt => .ok ⟨ts, nm, ab, ev, cands, tv, xv, pt, pr, cnt⟩
                | _, _, _, _, _ => .error .typeError
            | _, _, _, _ => .error .typeError
          else .error .typeError
      | _ => .error .typeError
  | _ => .error .typeError

/-- Decode the cached row list (source lines 98-102). -/
def rowsOfJson : List Json → Except PyError (List InputRecord)
  | [] => .ok []
  | j :: js =>
    match rowOfJson j with
    | .error e => .error e
    | .ok r =>
      match rowsOfJson js with
      | .error e => .error e
      | .ok rs => .ok (r :: rs)

/-- Source line 98: `record.get('rows', [])` followed by the row loop. -/
def loadCachedRows (j : Json) : Except PyError (List InputRecord) :=
  match j.getListD "rows" with
  | .error e => .error e
  | .ok rows => rowsOfJson rows

/-- Source line 113: serialize one record to its cached row
(`row._asdict()` with the timestamp replaced by its `isoformat` text). -/
def recordToJsonRow (r : InputRecord) : Json :=
  .obj [("timestamp", .str r.timestamp.isoformat),
        ("state_name", .str r.state_name),
        ("state_abbrev", .str r.state_abbrev),
        ("electoral_votes", .num r.electoral_votes),
        ("candidates", .arr (r.candidates.map
          (fun c => .obj [("last_name", .str c.last_name), ("votes", .num c.votes)]))),
        ("votes", .num r.votes),
        ("expected_votes", .num r.expected_votes),
        ("precincts_total", .num r.precincts_total),
        ("precincts_reporting", .num r.precincts_reporting),
        ("counties", .obj (r.counties.map (fun p => (p.1, .num p.2))))]

/-- Source line 117: the document `{"version": CACHE_VERSION, "rows": rows_for_cache}`
written by `json.dump`. -/
def cacheEntryJson (rows : List InputRecord) : Json :=
  .obj [("version", .num CACHE_VERSION), ("rows", .arr (rows.map recordToJsonRow))]

/-- The cache write path (source lines 111-117): serialize the rows under the
current schema version and overwrite the ref's entry. -/
def cachePut (c : Cache) (ref : String) (rows : List InputRecord) : Cache :=
  cacheInsert c ref (.parsed (cacheEntryJson rows))

/-- Outcome of the cache read path for one revision. -/
inductive ReadOutcome where
  | miss
  | skip
  | hit (rows : List InputRecord)

/-- The cache read path as a function of the on-disk state of the ref's file
(source lines 91-103): a missing file is a miss; a `ValueError` from
`json.load` makes the loop `continue`, skipping the revision; a parsed
non-dict raises on `record.get`; a version mismatch falls through to the
fetch path (miss); a version match loads the rows (which can itself raise). -/
def readCacheFile : Option CacheFile → Except PyError ReadOutcome
  | none => .ok .miss
  | some .corrupt => .ok .skip
  | some (.parsed j) =>
    match j with
    | .obj _ =>
      if isVersion j CACHE_VERSION then
        match loadCachedRows j with
        | .error e => .error e
        | .ok rows => .ok (.hit rows)
      else .ok .miss
    | _ => .error .attributeError

/-- The cache read path for a revision (`get` in the specification). -/
def readCache (c : Cache) (ref : String) : Except PyError ReadOutcome :=
  readCacheFile (cacheLookup c ref)

/-- The external collaborators of the aggregation loop: `repo ref` is
`git_show` composed with the simdjson parse (source lines 105-106); `none`
models either step raising. -/
structure Env where
  repo : String → Option Json

/-- Source lines 105-117: fetch and parse the revision's content, normalize
it, and write the fresh cache entry.  Neither the fetch (line 105) nor the
parse (line 106) nor the normalization (line 108) is guarded by any handler,
so each failure propagates. -/
def fetchAndCache (env : Env) (ref : String) (c : Cache) :
    Except PyError (List InputRecord × Cache) :=
  match env.repo ref with
  | none => .error .gitError
  | some j =>
    match process_json_data j with
    | .error e => .error e
    | .ok rows => .ok (rows, cachePut c ref rows)

/-- Process one revision (one iteration of the loop at source lines 88-117),
returning its contribution to `out` and the updated cache. -/
def processRef (env : Env) (ref : String) (c : Cache) :
    Except PyError (List InputRecord × Cache) :=
  match readCache c ref with
  | .error e => .error e
  | .ok .skip => .ok ([], c)
  | .ok (.hit rows) => .ok (rows, c)
  | .ok .miss => fetchAndCache env ref c

/-- Process all revisions in order, concatenating their contributions (the
source accumulates them into `out` with `append`/`extend`). -/
def runRefs (env : Env) : List String → Cache → Except PyError (List InputRecord × Cache)
  | [], c => .ok ([], c)
  | ref :: rest, c =>
    match processRef env ref c with
    | .error e => .error e
    | .ok (d, c₁) =>
      match runRefs env rest c₁ with
      | .error e => .error e
      | .ok (ds, c₂) => .ok (d ++ ds, c₂)

/-! ### Sorting and grouping (source lines 119-124) -/

/-- Insert a record into a list, before the first element whose timestamp is
not smaller; with `sortRecords` this is exactly a stable sort by timestamp,
which is what Python's stable `list.sort(key=...)` on line 119 computes. -/
def insertRec (r : InputRecord) : List InputRecord → List InputRecord
  | [] => [r]
  | x :: xs =>
    if r.timestamp.micros ≤ x.timestamp.micros then r :: x :: xs
    else x :: insertRec r xs

/-- Stable sort of the aggregated records by timestamp (source line 119). -/
def sortRecords : List InputRecord → List InputRecord
  | [] => []
  | x :: xs => insertRec x (sortRecords xs)

/-- The Grouped Series: group name to time-ordered records, in first-seen
key order like a Python dict. -/
def Grouped := List (String × List InputRecord)

/-- Append a record under its key, preserving dict insertion order
(`grouped[row.state_name].append(row)`, source line 122). -/
def groupAppend : Grouped → String → InputRecord → Grouped
  | [], k, r => [(k, [r])]
  | (k', rs) :: rest, k, r =>
    if k' = k then (k', rs ++ [r]) :: rest else (k', rs) :: groupAppend rest k r

/-- Source lines 120-122: partition the sorted sequence into the Grouped
Series by `state_name`. -/
def groupRecords (l : List InputRecord) : Grouped :=
  l.foldl (fun gs r => groupAppend gs r.state_name r) []

/-- Look one group up (`defaultdict(list)`: a missing key reads as `[]`). -/
def lookupGroup : Grouped → String → List InputRecord
  | [], _ => []
  | (k', rs) :: rest, k => if k' = k then rs else lookupGroup rest k

/-- Source `fetch_all_records` (lines 82-124): walk all revisions, then sort
and group.  The commit list comes from `git_commits_for` (line 83), an
external call whose failure (`HistoryUnavailable`) precedes everything
modelled here. -/
def fetch_all_records (env : Env) (commits : List String) (c : Cache) :
    Except PyError (Grouped × Cache) :=
  match runRefs env commits c with
  | .error e => .error e
  | .ok (out, c') => .ok (groupRecords (sortRecords out), c')

/-! ### Round trip of the timestamp text form -/

theorem charToDigit_digitToChar (d : Nat) (h : d < 10) :
    charToDigit (digitToChar d) = some d := by
  simp only [digitToChar]
  split_ifs with h0 h1 h2 h3 h4 h5 h6 h7 h8 h9 <;> first
    | (subst_vars; rfl)
    | omega

theorem digitToChar_ne (d : Nat) : digitToChar d ≠ '-' ∧ digitToChar d ≠ 'Z' := by
  simp only [digitToChar]
  split_ifs <;> exact ⟨by decide, by decide⟩

theorem natDigitsAux_lt : ∀ fuel n d, d ∈ natDigitsAux fuel n → d < 10
  | 0, _, d, h => by simp [natDigitsAux] at h
  | _ + 1, 0, d, h => by simp [natDigitsAux] at h
  | fuel + 1, n + 1, d, h => by
    simp only [natDigitsAux, List.mem_cons] at h
    rcases h with h | h
    · omega
    · exact natDigitsAux_lt fuel ((n + 1) / 10) d h

theorem valDigits_natDigitsAux : ∀ fuel n, n ≤ fuel → valDigits (natDigitsAux fuel n) = n
  | 0, n, h => by
    have hn : n = 0 := by omega
    subst hn; rfl
  | fuel + 1, 0, _ => rfl
  | fuel + 1, n + 1, h => by
    have hlt : (n + 1) / 10 < n + 1 := Nat.div_lt_self (Nat.succ_pos n) (by norm_num)
    have hle : (n + 1) / 10 ≤ fuel := by omega
    simp only [natDigitsAux, valDigits]
    rw [valDigits_natDigitsAux fuel ((n + 1) / 10) hle]
    omega

theorem charsToDigits_map_digitToChar :
    ∀ ds : List Nat, (∀ d ∈ ds, d < 10) → charsToDigits (ds.map digitToChar) = some ds
  | [], _ => rfl
  | d :: ds, h => by
    simp only [List.map_cons, charsToDigits,
      charToDigit_digitToChar d (h d (List.mem_cons_self d ds)),
      charsToDigits_map_digitToChar ds (fun x hx => h x (List.mem_cons_of_mem d hx))]

theorem parseNatChars_natChars (n : Nat) : parseNatChars (natChars n) = some n := by
  have hlt : ∀ d ∈ (natDigits n).reverse, d < 10 := fun d hd =>
    natDigitsAux_lt n n d (List.mem_reverse.mp hd)
  simp only [parseNatChars, natChars, ← List.map_reverse,
    charsToDigits_map_digitToChar _ hlt, Option.map_some', List.reverse_reverse]
  rw [show natDigits n = natDigitsAux n n from rfl,
    valDigits_natDigitsAux n n (le_refl n)]

theorem natChars_mem_ne (n : Nat) : ∀ c ∈ natChars n, c ≠ '-' ∧ c ≠ 'Z' := by
  intro c hc
  simp only [natChars, List.mem_reverse, List.mem_map] at hc
  obtain ⟨d, _, hd⟩ := hc
  exact hd ▸ digitToChar_ne d

theorem parse_isoformat_isoformat (d : Datetime) :
    parse_isoformat d.isoformat = some d := by
  have h0 := parseNatChars_natChars d.micros.natAbs
  have habs : ((d.micros.natAbs : Nat) : Int) = d.micros ∨
      -((d.micros.natAbs : Nat) : Int) = d.micros := by omega
  unfold parse_isoformat fromisoformat Datetime.isoformat
  by_cases hneg : d.micros < 0
  · simp only [hneg, if_true]
    rw [h0]
    have hm : -((d.micros.natAbs : Nat) : Int) = d.micros := by omega
    simp only [Option.bind_eq_bind, Option.some_bind, Option.pure_def, Option.map_some']
    rw [hm]
  · simp only [hneg, if_false]
    split
    · next cs heq =>
      exact absurd rfl (natChars_mem_ne _ '-' (heq ▸ List.mem_cons_self _ _)).1
    · next heq =>
      rw [h0]
      have hm : ((d.micros.natAbs : Nat) : Int) = d.micros := by omega
      simp only [Option.bind_eq_bind, Option.some_bind, Option.pure_def, Option.map_some']
      rw [hm]

/-- `str.replace("Z", "+00:00")` leaves a serialized timestamp unchanged:
its text contains no `Z`. -/
theorem replaceZ_isoformat (d : Datetime) : replaceZ d.isoformat = d.isoformat := by
  have hflat : ∀ l : List Char, (∀ c ∈ l, c ≠ 'Z') →
      l.flatMap (fun c => if c = 'Z' then ['+', '0', '0', ':', '0', '0'] else [c]) = l := by
    intro l
    induction l with
    | nil => intro _; rfl
    | cons c cs ih =>
      intro hl
      rw [List.flatMap_cons, if_neg (hl c (List.mem_cons_self c cs)), List.singleton_append,
        ih (fun x hx => hl x (List.mem_cons_of_mem c hx))]
  unfold replaceZ Datetime.isoformat
  by_cases hneg : d.micros < 0 <;> simp only [hneg, if_true, if_false]
  · exact congrArg String.mk (hflat _ (by
      intro x hx
      rcases List.mem_cons.mp hx with h | h
      · subst h; decide
      · exact (natChars_mem_ne _ x h).2))
  · exact congrArg String.mk (hflat _ (fun x hx => (natChars_mem_ne _ x hx).2))

/-! ### Round trip of cached rows -/

theorem candidateOfJson_roundtrip (c : Candidate) :
    candidateOfJson (.obj [("last_name", .str c.last_name), ("votes", .num c.votes)]) = .ok c :=
  rfl

theorem candidatesOfJson_roundtrip : ∀ cs : List Candidate,
    candidatesOfJson (cs.map
      (fun c => .obj [("last_name", .str c.last_name), ("votes", .num c.votes)])) = .ok cs
  | [] => rfl
  | c :: cs => by
    simp only [List.map_cons, candidatesOfJson, candidateOfJson_roundtrip,
      candidatesOfJson_roundtrip cs]

theorem countiesOfJson_roundtrip : ∀ l : List (String × Int),
    countiesOfJson (l.map (fun p => (p.1, .num p.2))) = .ok l
  | [] => rfl
  | (k, v) :: rest => by
    simp only [List.map_cons, countiesOfJson, countiesOfJson_roundtrip rest]

theorem rowOfJson_roundtrip (r : InputRecord) : rowOfJson (recordToJsonRow r) = .ok r := by
  simp [recordToJsonRow, rowOfJson, lookupKV, parse_isoformat_isoformat,
    candidatesOfJson_roundtrip, countiesOfJson_roundtrip]

theorem rowsOfJson_roundtrip : ∀ rows : List InputRecord,
    rowsOfJson (rows.map recordToJsonRow) = .ok rows
  | [] => rfl
  | r :: rs => by
    simp only [List.map_cons, rowsOfJson, rowOfJson_roundtrip, rowsOfJson_roundtrip rs]

theorem loadCachedRows_cacheEntryJson (rows : List InputRecord) :
    loadCachedRows (cacheEntryJson rows) = .ok rows := by
  simp [loadCachedRows, cacheEntryJson, Json.getListD, Json.find?, lookupKV,
    rowsOfJson_roundtrip]

theorem isVersion_cacheEntryJson (rows : List InputRecord) :
    isVersion (cacheEntryJson rows) CACHE_VERSION = true := rfl

theorem cacheLookup_cacheInsert_self (c : Cache) (ref : String) (f : CacheFile) :
    cacheLookup (cacheInsert c ref f) ref = some f := by
  simp [cacheInsert, cacheLookup]

theorem cacheLookup_cacheInsert_ne (c : Cache) (r ref : String) (f : CacheFile)
    (h : r ≠ ref) : cacheLookup (cacheInsert c r f) ref = cacheLookup c ref := by
  simp [cacheInsert, cacheLookup, h]

theorem readCache_cachePut (c : Cache) (ref : String) (rows : List InputRecord) :
    readCache (cachePut c ref rows) ref = .ok (.hit rows) := by
  have h1 := isVersion_cacheEntryJson rows
  have h2 := loadCachedRows_cacheEntryJson rows
  unfold cacheEntryJson at h1 h2
  simp [readCache, cachePut, cacheLookup_cacheInsert_self, readCacheFile,
    cacheEntryJson, h1, h2]

/-! ### Per-revision cache behavior and replay -/

theorem readCache_congr {c c' : Cache} {ref : String}
    (h : cacheLookup c' ref = cacheLookup c ref) : readCache c' ref = readCache c ref := by
  unfold readCache
  rw [h]

theorem lookup_of_skip {c : Cache} {ref : String} (h : readCache c ref = .ok .skip) :
    cacheLookup c ref = some .corrupt := by
  unfold readCache readCacheFile at h
  split at h
  · simp at h
  · next heq => exact heq
  · split at h
    · split at h
      · split at h <;> simp at h
      · simp at h
    · simp at h

theorem processRef_preserves {env : Env} {ref : String} {c : Cache} {d : List InputRecord}
    {c₂ : Cache} (h : processRef env ref c = .ok (d, c₂)) (r : String) (hr : ref ≠ r) :
    cacheLookup c₂ r = cacheLookup c r := by
  unfold processRef at h
  split at h
  · simp at h
  · simp only [Except.ok.injEq, Prod.mk.injEq] at h
    obtain ⟨-, h2⟩ := h
    subst h2; rfl
  · simp only [Except.ok.injEq, Prod.mk.injEq] at h
    obtain ⟨-, h2⟩ := h
    subst h2; rfl
  · unfold fetchAndCache at h
    split at h
    · simp at h
    · split at h
      · simp at h
      · simp only [Except.ok.injEq, Prod.mk.injEq] at h
        obtain ⟨-, h2⟩ := h
        subst h2
        exact cacheLookup_cacheInsert_ne c ref r _ hr

def StableAt (c : Cache) (ref : String) : Prop :=
  match cacheLookup c ref with
  | some .corrupt => True
  | some (.parsed j) => isVersion j CACHE_VERSION = true
  | none => False

theorem isVersion_obj {j : Json} (h : isVersion j CACHE_VERSION = true) :
    ∃ kvs, j = .obj kvs := by
  unfold isVersion at h
  cases j with
  | obj kvs => exact ⟨kvs, rfl⟩
  | null => simp [Json.find?] at h
  | bool b => simp [Json.find?] at h
  | num n => simp [Json.find?] at h
  | str s => simp [Json.find?] at h
  | arr xs => simp [Json.find?] at h

theorem stableAt_established {env : Env} {ref : String} {c : Cache} {d : List InputRecord}
    {c₂ : Cache} (h : processRef env ref c = .ok (d, c₂)) : StableAt c₂ ref := by
  unfold processRef at h
  split at h
  · simp at h
  · next heq =>
    simp only [Except.ok.injEq, Prod.mk.injEq] at h
    obtain ⟨-, h2⟩ := h
    subst h2
    unfold StableAt
    rw [lookup_of_skip heq]
    trivial
  · next rows heq =>
    simp only [Except.ok.injEq, Prod.mk.injEq] at h
    obtain ⟨-, h2⟩ := h
    subst h2
    unfold StableAt
    unfold readCache readCacheFile at heq
    split at heq
    · simp at heq
    · simp at heq
    · next j heqc =>
      rw [heqc]
      split at heq
      · split at heq
        · next hv => exact hv
        · simp at heq
      · simp at heq
  · unfold fetchAndCache at h
    split at h
    · simp at h
    · split at h
      · simp at h
      · simp only [Except.ok.injEq, Prod.mk.injEq] at h
        obtain ⟨-, h2⟩ := h
        subst h2
        unfold StableAt cachePut
        rw [cacheLookup_cacheInsert_self]
        exact isVersion_cacheEntryJson _

theorem stableAt_preserved {env : Env} {r : String} {c : Cache} {d : List InputRecord}
    {c₂ : Cache} {ref : String} (h : processRef env r c = .ok (d, c₂)) (hs : StableAt c ref) :
    cacheLookup c₂ ref = cacheLookup c ref := by
  by_cases hrr : r = ref
  · subst hrr
    unfold StableAt at hs
    unfold processRef at h
    rcases hc : cacheLookup c r with _ | f
    · rw [hc] at hs; exact absurd hs not_false
    · cases f with
      | corrupt =>
        have hskip : readCache c r = .ok .skip := by
          unfold readCache readCacheFile
          rw [hc]
        rw [hskip] at h
        simp only [Except.ok.injEq, Prod.mk.injEq] at h
        obtain ⟨-, h2⟩ := h
        subst h2
        exact hc
      | parsed j =>
        rw [hc] at hs
        obtain ⟨kvs, rfl⟩ := isVersion_obj hs
        have hread : readCache c r =
            match loadCachedRows (.obj kvs) with
            | .error e => .error e
            | .ok rows => .ok (.hit rows) := by
          unfold readCache readCacheFile
          rw [hc]
          simp [hs]
        rw [hread] at h
        rcases hload : loadCachedRows (Json.obj kvs) with e | rows
        · rw [hload] at h; simp at h
        · rw [hload] at h
          simp only [Except.ok.injEq, Prod.mk.injEq] at h
          obtain ⟨-, h2⟩ := h
          subst h2
          exact hc
  · exact processRef_preserves h ref hrr

theorem stableAt_of_eq {c c₂ : Cache} {ref : String} (hs : StableAt c ref)
    (h : cacheLookup c₂ ref = cacheLookup c ref) : StableAt c₂ ref := by
  unfold StableAt at hs ⊢
  rw [h]
  exact hs

theorem runRefs_stable {env : Env} :
    ∀ {refs : List String} {c : Cache} {ds : List InputRecord} {c₂ : Cache} {ref : String},
    runRefs env refs c = .ok (ds, c₂) → StableAt c ref → cacheLookup c₂ ref = cacheLookup c ref := by
  intro refs
  induction refs with
  | nil =>
    intro c ds c₂ ref h hs
    unfold runRefs at h
    simp only [Except.ok.injEq, Prod.mk.injEq] at h
    obtain ⟨-, h2⟩ := h
    subst h2; rfl
  | cons r rest ih =>
    intro c ds c₂ ref h hs
    unfold runRefs at h
    split at h
    · simp at h
    · next d c₁ heq =>
      split at h
      · simp at h
      · next ds' cfin heq2 =>
        simp only [Except.ok.injEq, Prod.mk.injEq] at h
        obtain ⟨-, h2⟩ := h
        rw [← h2]
        have ha : cacheLookup c₁ ref = cacheLookup c ref := stableAt_preserved heq hs
        have hb : cacheLookup cfin ref = cacheLookup c₁ ref := ih heq2 (stableAt_of_eq hs ha)
        rw [hb, ha]

theorem processRef_replay {env : Env} {ref : String} {c : Cache} {d : List InputRecord}
    {c₂ c' : Cache} (h : processRef env ref c = .ok (d, c₂))
    (hl : cacheLookup c' ref = cacheLookup c₂ ref) : processRef env ref c' = .ok (d, c') := by
  unfold processRef at h
  split at h
  · simp at h
  · next heq =>
    simp only [Except.ok.injEq, Prod.mk.injEq] at h
    obtain ⟨h1, h2⟩ := h
    subst h1
    subst h2
    unfold processRef
    rw [readCache_congr hl, heq]
  · next rows heq =>
    simp only [Except.ok.injEq, Prod.mk.injEq] at h
    obtain ⟨h1, h2⟩ := h
    subst h1
    subst h2
    unfold processRef
    rw [readCache_congr hl, heq]
  · next heq =>
    unfold fetchAndCache at h
    split at h
    · simp at h
    · next j hrepo =>
      split at h
      · simp at h
      · next rows hproc =>
        simp only [Except.ok.injEq, Prod.mk.injEq] at h
        obtain ⟨h1, h2⟩ := h
        subst h1
        have hx : cacheLookup c' ref = cacheLookup (cachePut c ref rows) ref := by
          rw [hl, ← h2]
        have hrd : readCache c' ref = .ok (.hit rows) := by
          rw [readCache_congr hx, readCache_cachePut]
        unfold processRef
        rw [hrd]

theorem runRefs_idem {env : Env} :
    ∀ {refs : List String} {c : Cache} {ds : List InputRecord} {cfin : Cache},
    runRefs env refs c = .ok (ds, cfin) → runRefs env refs cfin = .ok (ds, cfin) := by
  intro refs
  induction refs with
  | nil =>
    intro c ds cfin h
    unfold runRefs at h ⊢
    simp only [Except.ok.injEq, Prod.mk.injEq] at h ⊢
    obtain ⟨h1, h2⟩ := h
    exact ⟨h1, trivial⟩
  | cons r rest ih =>
    intro c ds cfin h
    unfold runRefs at h
    split at h
    · simp at h
    · next d c₁ heq =>
      split at h
      · simp at h
      · next ds' c₂ heq2 =>
        simp only [Except.ok.injEq, Prod.mk.injEq] at h
        obtain ⟨h1, h2⟩ := h
        subst h2
        have hst : StableAt c₁ r := stableAt_established heq
        have hlk : cacheLookup c₂ r = cacheLookup c₁ r := runRefs_stable heq2 hst
        have hp : processRef env r c₂ = .ok (d, c₂) := processRef_replay heq hlk
        have hr : runRefs env rest c₂ = .ok (ds', c₂) := ih heq2
        unfold runRefs
        simp only [hp, hr, h1]

/-! ### Sorting: stability, sortedness, permutation -/

theorem insertRec_perm (r : InputRecord) (l : List InputRecord) :
    List.Perm (insertRec r l) (r :: l) := by
  induction l with
  | nil => simp [insertRec]
  | cons x xs ih =>
    unfold insertRec
    by_cases h : r.timestamp.micros ≤ x.timestamp.micros
    · rw [if_pos h]
    · rw [if_neg h]
      exact (ih.cons x).trans (List.Perm.swap r x xs)

theorem insertRec_pairwise (r : InputRecord) (l : List InputRecord)
    (h : l.Pairwise (fun a b => a.timestamp.micros ≤ b.timestamp.micros)) :
    (insertRec r l).Pairwise (fun a b => a.timestamp.micros ≤ b.timestamp.micros) := by
  induction l with
  | nil => simp [insertRec]
  | cons x xs ih =>
    rw [List.pairwise_cons] at h
    obtain ⟨hx, hxs⟩ := h
    unfold insertRec
    by_cases hle : r.timestamp.micros ≤ x.timestamp.micros
    · rw [if_pos hle]
      refine List.Pairwise.cons ?_ (List.Pairwise.cons hx hxs)
      intro b hb
      rcases List.mem_cons.mp hb with hb | hb
      · exact hb ▸ hle
      · exact le_trans hle (hx b hb)
    · rw [if_neg hle]
      refine List.Pairwise.cons ?_ (ih hxs)
      intro b hb
      rcases List.mem_cons.mp ((insertRec_perm r xs).mem_iff.mp hb) with hb | hb
      · subst hb; omega
      · exact hx b hb

theorem insertRec_filter (r : InputRecord) (l : List InputRecord) (t : Int) :
    (insertRec r l).filter (fun x => x.timestamp.micros == t)
      = if r.timestamp.micros = t
        then r :: l.filter (fun x => x.timestamp.micros == t)
        else l.filter (fun x => x.timestamp.micros == t) := by
  induction l with
  | nil =>
    by_cases h : r.timestamp.micros = t <;>
      simp [insertRec, List.filter_singleton, h]
  | cons x xs ih =>
    unfold insertRec
    by_cases hle : r.timestamp.micros ≤ x.timestamp.micros
    · rw [if_pos hle]
      by_cases h : r.timestamp.micros = t <;> simp [List.filter_cons, h]
    · rw [if_neg hle]
      rw [List.filter_cons, List.filter_cons, ih]
      by_cases h : r.timestamp.micros = t
      · have hx : (x.timestamp.micros == t) = false := by
          simp only [beq_eq_false_iff_ne]
          omega
        simp [h, hx]
      · simp [h]

theorem sortRecords_perm (l : List InputRecord) : List.Perm (sortRecords l) l := by
  induction l with
  | nil => rfl
  | cons x xs ih =>
    unfold sortRecords
    exact (insertRec_perm x (sortRecords xs)).trans (ih.cons x)

theorem sortRecords_pairwise (l : List InputRecord) :
    (sortRecords l).Pairwise (fun a b => a.timestamp.micros ≤ b.timestamp.micros) := by
  induction l with
  | nil => simp [sortRecords]
  | cons x xs ih => exact insertRec_pairwise x (sortRecords xs) ih

theorem sortRecords_filter (l : List InputRecord) (t : Int) :
    (sortRecords l).filter (fun x => x.timestamp.micros == t)
      = l.filter (fun x => x.timestamp.micros == t) := by
  induction l with
  | nil => rfl
  | cons x xs ih =>
    unfold sortRecords
    rw [insertRec_filter, List.filter_cons]
    by_cases h : x.timestamp.micros = t
    · simp only [h, if_true, ih]
      simp
    · simp only [h, if_false, ih]
      simp [h]

/-! ### Grouping -/

theorem lookupGroup_groupAppend (gs : Grouped) (k k' : String) (r : InputRecord) :
    lookupGroup (groupAppend gs k' r) k
      = lookupGroup gs k ++ (if k' = k then [r] else []) := by
  induction gs with
  | nil =>
    by_cases h : k' = k <;> simp [groupAppend, lookupGroup, h]
  | cons p rest ih =>
    obtain ⟨k₀, rs⟩ := p
    unfold groupAppend
    by_cases h0 : k₀ = k'
    · subst h0
      rw [if_pos rfl]
      unfold lookupGroup
      by_cases hk : k₀ = k
      · rw [if_pos hk, if_pos hk, if_pos hk]
      · rw [if_neg hk, if_neg hk, if_neg hk]
        simp
    · rw [if_neg h0]
      unfold lookupGroup
      by_cases hk : k₀ = k
      · subst hk
        rw [if_pos rfl, if_pos rfl, if_neg (fun hkk => h0 hkk.symm)]
        simp
      · rw [if_neg hk, if_neg hk]
        exact ih

theorem lookupGroup_foldl (l : List InputRecord) :
    ∀ (gs : Grouped) (k : String),
    lookupGroup (l.foldl (fun gs r => groupAppend gs r.state_name r) gs) k
      = lookupGroup gs k ++ l.filter (fun r => r.state_name == k) := by
  induction l with
  | nil => intro gs k; simp
  | cons r rest ih =>
    intro gs k
    rw [List.foldl_cons, ih, lookupGroup_groupAppend, List.filter_cons, List.append_assoc]
    by_cases h : r.state_name = k
    · simp [h]
    · simp [h]

theorem lookupGroup_groupRecords (l : List InputRecord) (k : String) :
    lookupGroup (groupRecords l) k = l.filter (fun r => r.state_name == k) := by
  unfold groupRecords
  rw [lookupGroup_foldl]
  rfl

theorem mem_lookupGroup_groupRecords (l : List InputRecord) (k : String) (r : InputRecord) :
    r ∈ lookupGroup (groupRecords l) k ↔ (r.state_name = k ∧ r ∈ l) := by
  rw [lookupGroup_groupRecords, List.mem_filter]
  simp only [beq_iff_eq]
  tauto

/-! ### Per-revision failure propagation -/

/-- A revision whose fetch or parse/normalize step fails: either `git_show` /
the simdjson parse raises (source lines 105-106), or `process_json_data`
raises (line 108). -/
def fetchFails (env : Env) (ref : String) : Prop :=
  env.repo ref = none ∨ ∃ j e, env.repo ref = some j ∧ process_json_data j = .error e

theorem fetchAndCache_error {env : Env} {ref : String} (h : fetchFails env ref) (c : Cache) :
    ∃ e, fetchAndCache env ref c = .error e := by
  unfold fetchAndCache
  rcases h with h | ⟨j, e, hj, hp⟩
  · rw [h]
    exact ⟨.gitError, rfl⟩
  · refine ⟨e, ?_⟩
    simp only [hj, hp]

theorem processRef_of_corrupt {env : Env} {ref : String} {c : Cache}
    (hl : cacheLookup c ref = some .corrupt) : processRef env ref c = .ok ([], c) := by
  unfold processRef readCache readCacheFile
  rw [hl]

theorem processRef_of_none {env : Env} {ref : String} {c : Cache}
    (hl : cacheLookup c ref = none) : processRef env ref c = fetchAndCache env ref c := by
  unfold processRef readCache readCacheFile
  rw [hl]

theorem processRef_of_mismatch {env : Env} {ref : String} {c : Cache}
    {kvs : List (String × Json)} (hl : cacheLookup c ref = some (.parsed (.obj kvs)))
    (hv : isVersion (.obj kvs) CACHE_VERSION = false) :
    processRef env ref c = fetchAndCache env ref c := by
  unfold processRef readCache readCacheFile
  rw [hl]
  simp [hv]

theorem runRefs_error_of_fetchFails {env : Env} {ref : String} (hf : fetchFails env ref) :
    ∀ {refs : List String} {c : Cache}, ref ∈ refs → cacheLookup c ref = none →
    ∃ e, runRefs env refs c = .error e := by
  intro refs
  induction refs with
  | nil =>
    intro c hm _
    exact absurd hm (List.not_mem_nil ref)
  | cons r rest ih =>
    intro c hm hl
    by_cases hr : r = ref
    · subst hr
      have hread : readCache c r = .ok .miss := by
        unfold readCache readCacheFile
        rw [hl]
      obtain ⟨e, he⟩ := fetchAndCache_error hf c
      refine ⟨e, ?_⟩
      unfold runRefs processRef
      rw [hread]
      simp only [he]
    · have hm' : ref ∈ rest := by
        rcases List.mem_cons.mp hm with h | h
        · exact absurd h.symm hr
        · exact h
      unfold runRefs
      rcases hp : processRef env r c with e | dc
      · exact ⟨e, rfl⟩
      · obtain ⟨d, c₁⟩ := dc
        have hl₁ : cacheLookup c₁ ref = none :=
          (processRef_preserves hp ref hr).trans hl
        obtain ⟨e, he⟩ := ih hm' hl₁
        exact ⟨e, by simp only [he]⟩

/-! ### Structured raw documents

To quantify over all well-shaped raw documents, a document is built from
structured data: each `Option` field is present in the JSON object exactly
when it is `some`, so the builders range over documents with and without
each defaulted field. -/

/-- One candidate of a reporting unit: an optional `nyt_id` and the
required `votes.total` count. -/
structure CandData where
  nytId : Option String
  total : Int

/-- One reporting unit, all fields optional. -/
structure UnitData where
  uname : Option String
  stateAbb : Option String
  totalVotes : Option Int
  totalExpectedVote : Option Int
  precinctsTotal : Option Int
  precinctsReporting : Option Int
  cands : Option (List CandData)

/-- One race: a present, well-formed `updated_at`, an optional
`electoral_votes`, and its reporting units. -/
structure RaceData where
  updatedAt : Datetime
  electoralVotes : Option Int
  units : List UnitData

/-- A field that is present exactly when its value is `some`. -/
def optField (k : String) : Option Json → List (String × Json)
  | some v => [(k, v)]
  | none => []

/-- Key/value list of a candidate document. -/
def candKVs (cd : CandData) : List (String × Json) :=
  optField "nyt_id" (cd.nytId.map .str)
    ++ ([("votes", .obj [("total", .num cd.total)])] ++ [])

/-- A candidate document. -/
def mkCand (cd : CandData) : Json := .obj (candKVs cd)

/-- Key/value list of a reporting-unit document. -/
def unitKVs (u : UnitData) : List (String × Json) :=
  optField "name" (u.uname.map .str)
    ++ (optField "state_abb" (u.stateAbb.map .str)
    ++ (optField "total_votes" (u.totalVotes.map .num)
    ++ (optField "total_expected_vote" (u.totalExpectedVote.map .num)
    ++ (optField "precincts_total" (u.precinctsTotal.map .num)
    ++ (optField "precincts_reporting" (u.precinctsReporting.map .num)
    ++ (optField "candidates" (u.cands.map (fun cs => .arr (cs.map mkCand))) ++ []))))))

/-- A reporting-unit document. -/
def mkUnit (u : UnitData) : Json := .obj (unitKVs u)

/-- Key/value list of a race document. -/
def raceKVs (rd : RaceData) : List (String × Json) :=
  ("updated_at", .str rd.updatedAt.isoformat)
    :: (optField "electoral_votes" (rd.electoralVotes.map .num)
    ++ ([("reporting_units", .arr (rd.units.map mkUnit))] ++ []))

/-- A race document. -/
def mkRace (rd : RaceData) : Json := .obj (raceKVs rd)

/-- A whole raw document. -/
def mkDoc (rds : List RaceData) : Json :=
  .obj [("races", .arr (rds.map mkRace))]

/-- The candidate entry the normalizer is specified to emit: the stable
identifier (defaulting to the empty string) and the reported count. -/
def specCandidate (cd : CandData) : Candidate := ⟨cd.nytId.getD "", cd.total⟩

/-- The Record the normalizer is specified to emit for one reporting unit of
one race: the race's timestamp and weight, the unit's name/code defaulting to
"Unknown", every missing numeric field defaulting to 0, and the candidate
list flattened in source order. -/
def unitRecord (rd : RaceData) (u : UnitData) : InputRecord :=
  ⟨rd.updatedAt, u.uname.getD "Unknown", u.stateAbb.getD "Unknown",
   rd.electoralVotes.getD 0, (u.cands.getD []).map specCandidate,
   u.totalVotes.getD 0, u.totalExpectedVote.getD 0,
   u.precinctsTotal.getD 0, u.precinctsReporting.getD 0, []⟩

/-- All Records a document is specified to produce: one per reporting unit
per race, in document order. -/
def specRecords (rds : List RaceData) : List InputRecord :=
  rds.flatMap (fun rd => rd.units.map (unitRecord rd))

/-! ### Evaluating the normalizer on structured documents -/

theorem lookupKV_optField_ne (k' : String) (v : Option Json) (rest : List (String × Json))
    (k : String) (h : ¬k' = k) : lookupKV (optField k' v ++ rest) k = lookupKV rest k := by
  cases v <;> simp [optField, lookupKV, h]

theorem lookupKV_optField_self (k : String) (v : Option Json) (rest : List (String × Json))
    (hrest : lookupKV rest k = none) : lookupKV (optField k v ++ rest) k = v := by
  cases v with
  | none => simpa [optField] using hrest
  | some x => simp [optField, lookupKV]

theorem lookupKV_cons_self (k : String) (v : Json) (rest : List (String × Json)) :
    lookupKV ((k, v) :: rest) k = some v := by
  simp [lookupKV]

theorem lookupKV_cons_ne (k' : String) (v : Json) (rest : List (String × Json))
    (k : String) (h : ¬k' = k) : lookupKV ((k', v) :: rest) k = lookupKV rest k := by
  simp [lookupKV, h]

theorem unitKVs_name (u : UnitData) :
    lookupKV (unitKVs u) "name" = u.uname.map Json.str := by
  unfold unitKVs
  rw [lookupKV_optField_self]
  rw [lookupKV_optField_ne _ _ _ _ (by decide), lookupKV_optField_ne _ _ _ _ (by decide),
    lookupKV_optField_ne _ _ _ _ (by decide), lookupKV_optField_ne _ _ _ _ (by decide),
    lookupKV_optField_ne _ _ _ _ (by decide), lookupKV_optField_ne _ _ _ _ (by decide)]
  rfl

theorem unitKVs_stateAbb (u : UnitData) :
    lookupKV (unitKVs u) "state_abb" = u.stateAbb.map Json.str := by
  unfold unitKVs
  rw [lookupKV_optField_ne _ _ _ _ (by decide)]
  rw [lookupKV_optField_self]
  rw [lookupKV_optField_ne _ _ _ _ (by decide), lookupKV_optField_ne _ _ _ _ (by decide),
    lookupKV_optField_ne _ _ _ _ (by decide), lookupKV_optField_ne _ _ _ _ (by decide),
    lookupKV_optField_ne _ _ _ _ (by decide)]
  rfl

theorem unitKVs_totalVotes (u : UnitData) :
    lookupKV (unitKVs u) "total_votes" = u.totalVotes.map Json.num := by
  unfold unitKVs
  rw [lookupKV_optField_ne _ _ _ _ (by decide), lookupKV_optField_ne _ _ _ _ (by decide)]
  rw [lookupKV_optField_self]
  rw [lookupKV_optField_ne _ _ _ _ (by decide), lookupKV_optField_ne _ _ _ _ (by decide),
    lookupKV_optField_ne _ _ _ _ (by decide), lookupKV_optField_ne _ _ _ _ (by decide)]
  rfl

theorem unitKVs_totalExpectedVote (u : UnitData) :
    lookupKV (unitKVs u) "total_expected_vote" = u.totalExpectedVote.map Json.num := by
  unfold unitKVs
  rw [lookupKV_optField_ne _ _ _ _ (by decide), lookupKV_optField_ne _ _ _ _ (by decide),
    lookupKV_optField_ne _ _ _ _ (by decide)]
  rw [lookupKV_optField_self]
  rw [lookupKV_optField_ne _ _ _ _ (by decide), lookupKV_optField_ne _ _ _ _ (by decide),
    lookupKV_optField_ne _ _ _ _ (by decide)]
  rfl

theorem unitKVs_precinctsTotal (u : UnitData) :
    lookupKV (unitKVs u) "precincts_total" = u.precinctsTotal.map Json.num := by
  unfold unitKVs
  rw [lookupKV_optField_ne _ _ _ _ (by decide), lookupKV_optField_ne _ _ _ _ (by decide),
    lookupKV_optField_ne _ _ _ _ (by decide), lookupKV_optField_ne _ _ _ _ (by decide)]
  rw [lookupKV_optField_self]
  rw [lookupKV_optField_ne _ _ _ _ (by decide), lookupKV_optField_ne _ _ _ _ (by decide)]
  rfl

theorem unitKVs_precinctsReporting (u : UnitData) :
    lookupKV (unitKVs u) "precincts_reporting" = u.precinctsReporting.map Json.num := by
  unfold unitKVs
  rw [lookupKV_optField_ne _ _ _ _ (by decide), lookupKV_optField_ne _ _ _ _ (by decide),
    lookupKV_optField_ne _ _ _ _ (by decide), lookupKV_optField_ne _ _ _ _ (by decide),
    lookupKV_optField_ne _ _ _ _ (by decide)]
  rw [lookupKV_optField_self]
  rw [lookupKV_optField_ne _ _ _ _ (by decide)]
  rfl

theorem unitKVs_cands (u : UnitData) :
    lookupKV (unitKVs u) "candidates"
      = u.cands.map (fun cs => Json.arr (cs.map mkCand)) := by
  unfold unitKVs
  rw [lookupKV_optField_ne _ _ _ _ (by decide), lookupKV_optField_ne _ _ _ _ (by decide),
    lookupKV_optField_ne _ _ _ _ (by decide), lookupKV_optField_ne _ _ _ _ (by decide),
    lookupKV_optField_ne _ _ _ _ (by decide), lookupKV_optField_ne _ _ _ _ (by decide)]
  rw [lookupKV_optField_self]
  rfl

theorem unit_getList_cands (u : UnitData) :
    (Json.obj (unitKVs u)).getListD "candidates" = .ok ((u.cands.getD []).map mkCand) := by
  simp only [Json.getListD, Json.find?]
  rw [unitKVs_cands]
  cases u.cands <;> rfl

theorem unit_getStr_name (u : UnitData) :
    (Json.obj (unitKVs u)).getStrD "name" "Unknown" = .ok (u.uname.getD "Unknown") := by
  simp only [Json.getStrD, Json.find?]
  rw [unitKVs_name]
  cases u.uname <;> rfl

theorem unit_getStr_abb (u : UnitData) :
    (Json.obj (unitKVs u)).getStrD "state_abb" "Unknown" = .ok (u.stateAbb.getD "Unknown") := by
  simp only [Json.getStrD, Json.find?]
  rw [unitKVs_stateAbb]
  cases u.stateAbb <;> rfl

theorem unit_getInt_tv (u : UnitData) :
    (Json.obj (unitKVs u)).getIntD "total_votes" 0 = .ok (u.totalVotes.getD 0) := by
  simp only [Json.getIntD, Json.find?]
  rw [unitKVs_totalVotes]
  cases u.totalVotes <;> rfl

theorem unit_getInt_xv (u : UnitData) :
    (Json.obj (unitKVs u)).getIntD "total_expected_vote" 0
      = .ok (u.totalExpectedVote.getD 0) := by
  simp only [Json.getIntD, Json.find?]
  rw [unitKVs_totalExpectedVote]
  cases u.totalExpectedVote <;> rfl

theorem unit_getInt_pt (u : UnitData) :
    (Json.obj (unitKVs u)).getIntD "precincts_total" 0 = .ok (u.precinctsTotal.getD 0) := by
  simp only [Json.getIntD, Json.find?]
  rw [unitKVs_precinctsTotal]
  cases u.precinctsTotal <;> rfl

theorem unit_getInt_pr (u : UnitData) :
    (Json.obj (unitKVs u)).getIntD "precincts_reporting" 0
      = .ok (u.precinctsReporting.getD 0) := by
  simp only [Json.getIntD, Json.find?]
  rw [unitKVs_precinctsReporting]
  cases u.precinctsReporting <;> rfl

theorem processCandidate_mkCand (cd : CandData) :
    processCandidate (mkCand cd) = .ok (specCandidate cd) := by
  obtain ⟨id, tot⟩ := cd
  cases id <;>
    simp [mkCand, candKVs, processCandidate, Json.getStrD, Json.find?, lookupKV, optField,
      specCandidate]

theorem processCandidates_map : ∀ cs : List CandData,
    processCandidates (cs.map mkCand) = .ok (cs.map specCandidate)
  | [] => rfl
  | cd :: cs => by
    simp only [List.map_cons, processCandidates, processCandidate_mkCand,
      processCandidates_map cs]

theorem raceKVs_updated (rd : RaceData) :
    lookupKV (raceKVs rd) "updated_at" = some (.str rd.updatedAt.isoformat) := by
  unfold raceKVs
  rw [lookupKV_cons_self]

theorem raceKVs_ev (rd : RaceData) :
    lookupKV (raceKVs rd) "electoral_votes" = rd.electoralVotes.map Json.num := by
  unfold raceKVs
  rw [lookupKV_cons_ne _ _ _ _ (by decide)]
  rw [lookupKV_optField_self]
  simp [lookupKV]

theorem raceKVs_units (rd : RaceData) :
    lookupKV (raceKVs rd) "reporting_units" = some (.arr (rd.units.map mkUnit)) := by
  unfold raceKVs
  rw [lookupKV_cons_ne _ _ _ _ (by decide), lookupKV_optField_ne _ _ _ _ (by decide)]
  simp [lookupKV]

theorem raceTimestamp_mkRace (rd : RaceData) :
    raceTimestamp (mkRace rd) = .ok rd.updatedAt := by
  simp only [raceTimestamp, mkRace, Json.find?, raceKVs_updated]
  rw [replaceZ_isoformat]
  rw [show fromisoformat rd.updatedAt.isoformat = parse_isoformat rd.updatedAt.isoformat
    from rfl]
  rw [parse_isoformat_isoformat]

theorem race_getInt_ev (rd : RaceData) :
    (mkRace rd).getIntD "electoral_votes" 0 = .ok (rd.electoralVotes.getD 0) := by
  simp only [mkRace, Json.getIntD, Json.find?]
  rw [raceKVs_ev]
  cases rd.electoralVotes <;> rfl

theorem race_getList_units (rd : RaceData) :
    (mkRace rd).getListD "reporting_units" = .ok (rd.units.map mkUnit) := by
  simp only [mkRace, Json.getListD, Json.find?]
  rw [raceKVs_units]

theorem processUnit_mkUnit (t : Datetime) (rd : RaceData) (u : UnitData) :
    processUnit t (mkRace rd) (mkUnit u)
      = .ok ⟨t, u.uname.getD "Unknown", u.stateAbb.getD "Unknown",
          rd.electoralVotes.getD 0, (u.cands.getD []).map specCandidate,
          u.totalVotes.getD 0, u.totalExpectedVote.getD 0,
          u.precinctsTotal.getD 0, u.precinctsReporting.getD 0, []⟩ := by
  rw [show mkUnit u = Json.obj (unitKVs u) from rfl]
  simp only [processUnit, unit_getList_cands, processCandidates_map, unit_getStr_name,
    unit_getStr_abb, race_getInt_ev, unit_getInt_tv, unit_getInt_xv, unit_getInt_pt,
    unit_getInt_pr]

theorem processUnits_map (rd : RaceData) : ∀ us : List UnitData,
    processUnits rd.updatedAt (mkRace rd) (us.map mkUnit)
      = .ok (us.map (fun u => unitRecord rd u))
  | [] => rfl
  | u :: us => by
    have h1 : unitRecord rd u
        = ⟨rd.updatedAt, u.uname.getD "Unknown", u.stateAbb.getD "Unknown",
          rd.electoralVotes.getD 0, (u.cands.getD []).map specCandidate,
          u.totalVotes.getD 0, u.totalExpectedVote.getD 0,
          u.precinctsTotal.getD 0, u.precinctsReporting.getD 0, []⟩ := rfl
    simp only [List.map_cons, processUnits, processUnit_mkUnit rd.updatedAt rd u,
      processUnits_map rd us, ← h1]

theorem processRace_mkRace (rd : RaceData) :
    processRace (mkRace rd) = .ok (rd.units.map (unitRecord rd)) := by
  simp only [processRace, raceTimestamp_mkRace, race_getList_units,
    processUnits_map rd rd.units]

theorem processRaces_map : ∀ rds : List RaceData,
    processRaces (rds.map mkRace) = .ok (specRecords rds)
  | [] => rfl
  | rd :: rds => by
    simp only [List.map_cons, processRaces, processRace_mkRace,
      processRaces_map rds, specRecords, List.flatMap_cons]

theorem process_mkDoc (rds : List RaceData) :
    process_json_data (mkDoc rds) = .ok (specRecords rds) := by
  simp only [process_json_data, mkDoc, Json.getListD, Json.find?, lookupKV, if_true]
  exact processRaces_map rds

/-! ### Concrete fixtures -/

/-- A minimal raw document: one race updated at time 5 with one reporting
unit that has no fields at all. -/
def docA : Json :=
  .obj [("races", .arr [.obj [("updated_at", .str "5"),
    ("reporting_units", .arr [.obj []])]])]

/-- The record `docA` normalizes to: every missing field defaulted. -/
def recA : InputRecord := ⟨⟨5⟩, "Unknown", "Unknown", 0, [], 0, 0, 0, 0, []⟩

/-- A repository in which only revision "a" has readable, parseable content. -/
def envA : Env := ⟨fun r => if r = "a" then some docA else none⟩

/-- A repository in which only revision "b" has readable, parseable content;
revision "a" fails at the fetch/parse step. -/
def envB : Env := ⟨fun r => if r = "b" then some docA else none⟩

/-- A repository whose every revision fails at the fetch/parse step. -/
def envNone : Env := ⟨fun _ => none⟩

/-- A cache whose entry for revision "a" is corrupt (unparseable). -/
def corruptCacheA : Cache := [("a", .corrupt)]

/-- Records of a race list whose races all have zero reporting units. -/
theorem specRecords_nil : ∀ {rds : List RaceData}, (∀ rd ∈ rds, rd.units = []) →
    specRecords rds = []
  | [], _ => rfl
  | rd :: rds, h => by
    unfold specRecords
    rw [List.flatMap_cons, h rd (List.mem_cons_self rd rds), List.map_nil, List.nil_append]
    exact specRecords_nil (fun x hx => h x (List.mem_cons_of_mem rd hx))

/-! ### The claims -/

/-- C1 (counterexample): in a two-revision history where revision "a" fails at
the fetch/parse step and revision "b" is fine, the whole aggregation run
raises instead of completing with revision "b"'s records: nothing guards the
fetch/parse/normalize calls at source lines 105-108. -/
theorem C1_cex :
    envB.repo "a" = none ∧ envB.repo "b" = some docA ∧
    process_json_data docA = .ok [recA] ∧
    fetch_all_records envB ["a", "b"] [] = .error .gitError :=
  ⟨rfl, rfl, rfl, rfl⟩

/-- C1 (amended): a revision whose fetch or parse/normalize step fails, and
whose cache entry is absent, makes the whole aggregation run raise — no
Grouped Series is produced at all.  Only a corrupt cache entry is isolated
per-revision (see C2). -/
theorem C1_amended (env : Env) (commits : List String) (c : Cache) (ref : String)
    (hmem : ref ∈ commits) (hmiss : cacheLookup c ref = none)
    (hfail : fetchFails env ref) :
    ∃ e, fetch_all_records env commits c = .error e := by
  obtain ⟨e, he⟩ := runRefs_error_of_fetchFails hfail hmem hmiss
  refine ⟨e, ?_⟩
  unfold fetch_all_records
  simp only [he]

/-- C1 witness: the amended claim at the concrete two-revision history. -/
theorem C1_witness :
    ("a" ∈ ["a", "b"] ∧ cacheLookup ([] : Cache) "a" = none ∧ fetchFails envB "a") ∧
    ∃ e, fetch_all_records envB ["a", "b"] [] = .error e :=
  ⟨⟨by simp, rfl, Or.inl rfl⟩,
    C1_amended envB ["a", "b"] [] "a" (by simp) rfl (Or.inl rfl)⟩

/-- C2 (counterexample): a corrupt cache entry for revision "a" does NOT
behave like the no-entry case.  With the corrupt entry the run yields no
records and leaves the corrupt entry in place; with no entry it re-fetches,
emits the revision's record and writes a fresh entry. -/
theorem C2_cex :
    fetch_all_records envA ["a"] corruptCacheA = .ok ([], corruptCacheA) ∧
    fetch_all_records envA ["a"] [] =
      .ok ([("Unknown", [recA])], [("a", .parsed (cacheEntryJson [recA]))]) :=
  ⟨rfl, rfl⟩

/-- C2 (amended): a revision whose on-disk cache entry exists but is
unparseable is skipped entirely (the `except ValueError: continue` at source
lines 95-96): it contributes no records, is not re-fetched, and the corrupt
entry is left in place, unlike the no-entry case. -/
theorem C2_amended (env : Env) (ref : String) (c : Cache)
    (h : cacheLookup c ref = some .corrupt) : processRef env ref c = .ok ([], c) :=
  processRef_of_corrupt h

/-- C2 witness: the amended claim at the concrete corrupt entry. -/
theorem C2_witness :
    cacheLookup corruptCacheA "a" = some .corrupt ∧
    processRef envA "a" corruptCacheA = .ok ([], corruptCacheA) :=
  ⟨rfl, C2_amended envA "a" corruptCacheA rfl⟩

/-- C10: a cache entry that parses fine and carries the expected version but
whose rows are malformed aborts the whole run: a row without a `timestamp`
key raises `KeyError` (source line 100), and a row whose keys are not exactly
the `InputRecord` fields raises `TypeError` at `InputRecord(**row_data)`
(source line 102).  No shape validation treats these as cache misses. -/
theorem C10_no_shape_validation :
    fetch_all_records envNone ["a"]
      [("a", .parsed (.obj [("version", .num 2), ("rows", .arr [.obj []])]))]
      = .error .keyError ∧
    fetch_all_records envNone ["b"]
      [("b", .parsed (.obj [("version", .num 2),
        ("rows", .arr [.obj [("timestamp", .str "5"), ("bogus", .null)]])]))]
      = .error .typeError :=
  ⟨rfl, rfl⟩

/-- C3 (counterexample): a candidate dict without a `votes` key makes the
normalizer raise `KeyError` (source line 56 reads `c["votes"]["total"]` with
no default) instead of defaulting the count to 0. -/
theorem C3_cex :
    process_json_data
      (.obj [("races", .arr [.obj [("updated_at", .str "5"),
        ("reporting_units", .arr [.obj [("candidates", .arr [.obj []])]])]])])
      = .error .keyError :=
  rfl

/-- C3 (amended): for every well-shaped raw document, the normalizer emits
one Record per reporting unit of each race, defaulting missing `weight`,
`total`, `expected_total`, `units_total` and `units_reporting` to 0, missing
unit name/code fields to "Unknown" (a missing candidate identifier defaults
to the empty string), and preserving the candidate list's source order in
`entries` — but each candidate's reported count is required, not defaulted
(see the counterexample): `CandData.total` has no `Option`. -/
theorem C3_amended (rds : List RaceData) :
    process_json_data (mkDoc rds) = .ok (specRecords rds) :=
  process_mkDoc rds

/-- C4: running the pipeline a second time against an unchanged history
yields the identical Grouped Series and final cache (in particular no cache
entry changes on the second run), and any run preserves the content of every
existing version-matching cache entry. -/
theorem C4_idempotent (env : Env) (commits : List String) (c : Cache)
    (g : Grouped) (cfin : Cache) (h : fetch_all_records env commits c = .ok (g, cfin)) :
    fetch_all_records env commits cfin = .ok (g, cfin) ∧
    ∀ ref j, cacheLookup c ref = some (.parsed j) → isVersion j CACHE_VERSION = true →
      cacheLookup cfin ref = some (.parsed j) := by
  unfold fetch_all_records at h ⊢
  rcases hr : runRefs env commits c with e | p
  · rw [hr] at h
    simp at h
  · obtain ⟨ds, c₂⟩ := p
    rw [hr] at h
    simp only [Except.ok.injEq, Prod.mk.injEq] at h
    obtain ⟨h1, h2⟩ := h
    subst h2
    constructor
    · have hidem := runRefs_idem hr
      simp only [hidem, h1]
    · intro ref j hl hv
      have hst : StableAt c ref := by
        unfold StableAt
        rw [hl]
        exact hv
      rw [runRefs_stable hr hst, hl]

/-- C4 witness: the theorem at a concrete one-revision history starting from
the empty cache. -/
theorem C4_witness :
    fetch_all_records envA ["a"] [] =
      .ok ([("Unknown", [recA])], [("a", .parsed (cacheEntryJson [recA]))]) ∧
    fetch_all_records envA ["a"] [("a", .parsed (cacheEntryJson [recA]))] =
      .ok ([("Unknown", [recA])], [("a", .parsed (cacheEntryJson [recA]))]) :=
  ⟨rfl, (C4_idempotent envA ["a"] [] _ _ rfl).1⟩

/-- C5: the cache read path immediately after the cache write path for the
same revision and unchanged expected version returns exactly the written
records — each timestamp survives the round trip through its serialized
text form. -/
theorem C5_roundtrip (c : Cache) (ref : String) (rows : List InputRecord) :
    readCache (cachePut c ref rows) ref = .ok (.hit rows) ∧
    ∀ t : Datetime, parse_isoformat t.isoformat = some t :=
  ⟨readCache_cachePut c ref rows, parse_isoformat_isoformat⟩

/-- C6: a parsed cache entry whose `version` differs from `CACHE_VERSION` is
treated exactly like an absent one: the revision is re-fetched and
re-normalized and the entry is overwritten with a fresh one tagged with the
current version. -/
theorem C6_version_invalidation (env : Env) (ref : String) (c : Cache)
    (kvs : List (String × Json)) (doc : Json) (rows : List InputRecord)
    (hl : cacheLookup c ref = some (.parsed (.obj kvs)))
    (hv : isVersion (.obj kvs) CACHE_VERSION = false)
    (hrepo : env.repo ref = some doc)
    (hproc : process_json_data doc = .ok rows) :
    processRef env ref c = .ok (rows, cachePut c ref rows) ∧
    isVersion (cacheEntryJson rows) CACHE_VERSION = true := by
  refine ⟨?_, isVersion_cacheEntryJson rows⟩
  rw [processRef_of_mismatch hl hv]
  unfold fetchAndCache
  simp only [hrepo, hproc]

/-- C6 witness: the theorem at a concrete stale (version 1) entry. -/
theorem C6_witness :
    (cacheLookup [("a", .parsed (.obj [("version", .num 1), ("rows", .arr [])]))] "a"
        = some (.parsed (.obj [("version", .num 1), ("rows", .arr [])]))
      ∧ isVersion (.obj [("version", .num 1), ("rows", .arr [])]) CACHE_VERSION = false
      ∧ envA.repo "a" = some docA ∧ process_json_data docA = .ok [recA]) ∧
    (processRef envA "a" [("a", .parsed (.obj [("version", .num 1), ("rows", .arr [])]))]
        = .ok ([recA], cachePut [("a", .parsed (.obj [("version", .num 1), ("rows", .arr [])]))] "a" [recA])
      ∧ isVersion (cacheEntryJson [recA]) CACHE_VERSION = true) :=
  ⟨⟨rfl, rfl, rfl, rfl⟩,
    C6_version_invalidation envA "a" _ _ docA [recA] rfl rfl rfl rfl⟩

/-- C7: the aggregated sequence is the concatenation of all revisions'
records sorted by timestamp with a stable sort: `fetch_all_records` groups
exactly `sortRecords` of the concatenated `runRefs` output, and `sortRecords`
is a permutation, is sorted by timestamp ascending, and preserves the
relative order of records with equal timestamps (its filtered subsequence at
any timestamp equals the input's). -/
theorem C7_sort_stable (l : List InputRecord) :
    (∀ env commits c, fetch_all_records env commits c
        = (runRefs env commits c).map (fun p => (groupRecords (sortRecords p.1), p.2))) ∧
    List.Perm (sortRecords l) l ∧
    (sortRecords l).Pairwise (fun a b => a.timestamp.micros ≤ b.timestamp.micros) ∧
    ∀ t : Int, (sortRecords l).filter (fun x => x.timestamp.micros == t)
      = l.filter (fun x => x.timestamp.micros == t) := by
  refine ⟨?_, sortRecords_perm l, sortRecords_pairwise l, sortRecords_filter l⟩
  intro env commits c
  unfold fetch_all_records
  cases hr : runRefs env commits c with
  | error e => rfl
  | ok p => rfl

/-- C8: every record appears in the group named by its `state_name`, exactly
the records with that key appear there, and the post-sort relative order is
preserved within each group (each group is the filtered subsequence). -/
theorem C8_grouping (l : List InputRecord) (k : String) (r : InputRecord) :
    lookupGroup (groupRecords l) k = l.filter (fun x => x.state_name == k) ∧
    (r ∈ lookupGroup (groupRecords l) k ↔ (r.state_name = k ∧ r ∈ l)) :=
  ⟨lookupGroup_groupRecords l k, mem_lookupGroup_groupRecords l k r⟩

/-- C9 (counterexample): a race with zero reporting units is not always
error-free: a race lacking `updated_at` raises `AttributeError` at source
line 54 even though it has no reporting units. -/
theorem C9_cex :
    process_json_data (.obj [("races", .arr [.obj []])]) = .error .attributeError :=
  rfl

/-- C9 (amended): provided each race carries a parseable `updated_at`, races
(or documents) with zero reporting units contribute zero Records without
error, and Records are never deduplicated: the same reporting unit appearing
in two races of one document yields one Record per occurrence, both sharing
the same group key. -/
theorem C9_amended (rds : List RaceData) (hempty : ∀ rd ∈ rds, rd.units = [])
    (t1 t2 : Datetime) (ev1 ev2 : Option Int) (u : UnitData) :
    process_json_data (mkDoc rds) = .ok [] ∧
    process_json_data (mkDoc []) = .ok [] ∧
    process_json_data (mkDoc [⟨t1, ev1, [u]⟩, ⟨t2, ev2, [u]⟩])
      = .ok [unitRecord ⟨t1, ev1, [u]⟩ u, unitRecord ⟨t2, ev2, [u]⟩ u] ∧
    (unitRecord ⟨t1, ev1, [u]⟩ u).state_name = (unitRecord ⟨t2, ev2, [u]⟩ u).state_name := by
  refine ⟨?_, rfl, ?_, rfl⟩
  · rw [process_mkDoc, specRecords_nil hempty]
  · rw [process_mkDoc]
    rfl

/-- C9 witness: the amended claim at an empty race list and two concrete
races sharing one concrete unit. -/
theorem C9_witness :
    (∀ rd ∈ ([] : List RaceData), rd.units = []) ∧
    (process_json_data (mkDoc []) = .ok [] ∧
     process_json_data (mkDoc []) = .ok [] ∧
     process_json_data (mkDoc [⟨⟨1⟩, none, [⟨none, none, none, none, none, none, none⟩]⟩,
         ⟨⟨2⟩, some 3, [⟨none, none, none, none, none, none, none⟩]⟩])
       = .ok [unitRecord ⟨⟨1⟩, none, [⟨none, none, none, none, none, none, none⟩]⟩
                ⟨none, none, none, none, none, none, none⟩,
              unitRecord ⟨⟨2⟩, some 3, [⟨none, none, none, none, none, none, none⟩]⟩
                ⟨none, none, none, none, none, none, none⟩] ∧
     (unitRecord ⟨⟨1⟩, none, [⟨none, none, none, none, none, none, none⟩]⟩
        ⟨none, none, none, none, none, none, none⟩).state_name
       = (unitRecord ⟨⟨2⟩, some 3, [⟨none, none, none, none, none, none, none⟩]⟩
          ⟨none, none, none, none, none, none, none⟩).state_name) :=
  ⟨fun rd hrd => absurd hrd (List.not_mem_nil rd),
    C9_amended [] (fun rd hrd => absurd hrd (List.not_mem_nil rd)) ⟨1⟩ ⟨2⟩ none (some 3)
      ⟨none, none, none, none, none, none, none⟩⟩
